import Mathlib

/-!
Tile hierarchy of `baldr/tilehierarchy.cc`.

A shallow embedding of `valhalla::baldr::TileHierarchy`: the static level
table, the transit level, and the hierarchy queries built on them
(`GetGraphIdBoundingBox`, `GetGraphId`, `get_level`, `get_max_level`,
`GetGraphIds`, `get_tiling`, `parent`).

Coordinates are exact rationals: every tile edge of the level table is a
dyadic multiple of 45 (45/16, 45/64, 45/256) and every grid line is a
multiple of 45/256, so grid arithmetic on grid-aligned values is exact.
-/

namespace valhalla

namespace midgard

/-- A longitude/latitude pair (`midgard::PointLL`): `x` is the longitude and
`y` the latitude, in degrees. -/
structure PointLL where
  x : ℚ
  y : ℚ
deriving DecidableEq, Repr

/-- A displacement (`midgard::VectorXY<double>`). -/
structure VectorXY where
  x : ℚ
  y : ℚ
deriving DecidableEq, Repr

/-- Point plus vector, componentwise (`PointLL + VectorXY`). -/
def PointLL.add (p : PointLL) (v : VectorXY) : PointLL :=
  ⟨p.x + v.x, p.y + v.y⟩

/-- An axis-aligned rectangle (`midgard::AABB2<PointLL>`), given by its
minimum and maximum corner. -/
structure AABB2 where
  minx : ℚ
  miny : ℚ
  maxx : ℚ
  maxy : ℚ
deriving DecidableEq, Repr

/-- Rectangle `a` contains rectangle `b`: the minimum corner of `a` is at or
below that of `b` and the maximum corner of `b` at or below that of `a`, on
both axes. -/
def AABB2.ContainsBox (a b : AABB2) : Prop :=
  a.minx ≤ b.minx ∧ a.miny ≤ b.miny ∧ b.maxx ≤ a.maxx ∧ b.maxy ≤ a.maxy

instance (a b : AABB2) : Decidable (a.ContainsBox b) := by
  unfold AABB2.ContainsBox; infer_instance

/-- The interiors of two rectangles overlap: on both axes the open intervals
they span intersect. -/
def AABB2.InteriorsMeet (a b : AABB2) : Prop :=
  a.minx < b.maxx ∧ b.minx < a.maxx ∧ a.miny < b.maxy ∧ b.miny < a.maxy

instance (a b : AABB2) : Decidable (a.InteriorsMeet b) := by
  unfold AABB2.InteriorsMeet; infer_instance

/-- A point lies in a rectangle, edges included. -/
def AABB2.ContainsPoint (a : AABB2) (p : PointLL) : Prop :=
  a.minx ≤ p.x ∧ p.x ≤ a.maxx ∧ a.miny ≤ p.y ∧ p.y ≤ a.maxy

instance (a : AABB2) (p : PointLL) : Decidable (a.ContainsPoint p) := by
  unfold AABB2.ContainsPoint; infer_instance

/-- A point lies strictly inside a rectangle, on none of its edges. -/
def AABB2.InInterior (a : AABB2) (p : PointLL) : Prop :=
  a.minx < p.x ∧ p.x < a.maxx ∧ a.miny < p.y ∧ p.y < a.maxy

instance (a : AABB2) (p : PointLL) : Decidable (a.InInterior p) := by
  unfold AABB2.InInterior; infer_instance

/-- Conversion of a floating value to `int32_t`: truncation toward zero. -/
def truncToInt (q : ℚ) : Int :=
  if 0 ≤ q then ⌊q⌋ else -⌊-q⌋

/-- Modelled from the spec: the uniform-grid tiling primitive
(`midgard::Tiles<PointLL>`, declared in `midgard/tiles.h`, which is not among
the sources).  A tiling is an origin (its south-west corner), a tile edge
length and explicit column and row counts; tiles are numbered row by row
from the origin. -/
structure Tiles where
  minx : ℚ
  miny : ℚ
  tilesize : ℚ
  ncolumns : Int
  nrows : Int
deriving DecidableEq, Repr

namespace Tiles

/-- Modelled from the spec: the east edge of the covered extent
(`tilebounds_.maxx()`), origin plus columns times tile edge. -/
def maxx (t : Tiles) : ℚ := t.minx + t.ncolumns * t.tilesize

/-- Modelled from the spec: the north edge of the covered extent
(`tilebounds_.maxy()`), origin plus rows times tile edge. -/
def maxy (t : Tiles) : ℚ := t.miny + t.nrows * t.tilesize

/-- Modelled from the spec: the tile edge length (`Tiles::TileSize`). -/
def TileSize (t : Tiles) : ℚ := t.tilesize

/-- Modelled from the spec: the row of a latitude (`Tiles::Row`): `-1`
outside the extent, the last row on the north edge, otherwise the offset
from the origin divided by the tile edge, truncated. -/
def Row (t : Tiles) (y : ℚ) : Int :=
  if y < t.miny ∨ y > t.maxy then -1
  else if y = t.maxy then t.nrows - 1
  else truncToInt ((y - t.miny) / t.tilesize)

/-- Modelled from the spec: the column of a longitude (`Tiles::Col`): `-1`
outside the extent, the last column on the east edge, otherwise the offset
from the origin divided by the tile edge, truncated. -/
def Col (t : Tiles) (x : ℚ) : Int :=
  if x < t.minx ∨ x > t.maxx then -1
  else if x = t.maxx then t.ncolumns - 1
  else truncToInt ((x - t.minx) / t.tilesize)

/-- Modelled from the spec: the tile index containing a point
(`Tiles::TileId`): `-1` when the point is outside the covered extent,
otherwise row times column count plus column. -/
def TileId (t : Tiles) (c : PointLL) : Int :=
  if c.y < t.miny ∨ c.x < t.minx ∨ c.y > t.maxy ∨ c.x > t.maxx then -1
  else t.Row c.y * t.ncolumns + t.Col c.x

/-- Modelled from the spec: the origin (south-west) corner of a tile
(`Tiles::Base`); the divisions are those of `int32_t`. -/
def Base (t : Tiles) (tileid : Int) : PointLL :=
  let row := Int.tdiv tileid t.ncolumns
  let col := tileid - row * t.ncolumns
  ⟨t.minx + col * t.tilesize, t.miny + row * t.tilesize⟩

/-- Modelled from the spec: the bounding rectangle of a tile
(`Tiles::TileBounds`): from its origin corner, one tile edge east and
north. -/
def TileBounds (t : Tiles) (tileid : Int) : AABB2 :=
  let base := t.Base tileid
  ⟨base.x, base.y, base.x + t.tilesize, base.y + t.tilesize⟩

end Tiles

end midgard

namespace baldr

open midgard

/-- Modelled from the spec: the road-class enumeration (`baldr::RoadClass`,
declared in `baldr/graphconstants.h`, which is not among the sources),
ordered from the most important class to the least important one. -/
inductive RoadClass
  | kMotorway
  | kTrunk
  | kPrimary
  | kSecondary
  | kTertiary
  | kUnclassified
  | kResidential
  | kServiceOther
deriving DecidableEq, Repr

/-- Modelled from the spec: the underlying value of a road class, its
position in the enumeration; the order of road classes is the order of these
values. -/
def RoadClass.toNat : RoadClass → Nat
  | .kMotorway => 0
  | .kTrunk => 1
  | .kPrimary => 2
  | .kSecondary => 3
  | .kTertiary => 4
  | .kUnclassified => 5
  | .kResidential => 6
  | .kServiceOther => 7

instance : LE RoadClass := ⟨fun a b => a.toNat ≤ b.toNat⟩

instance : LT RoadClass := ⟨fun a b => a.toNat < b.toNat⟩

instance (a b : RoadClass) : Decidable (a ≤ b) :=
  inferInstanceAs (Decidable (a.toNat ≤ b.toNat))

instance (a b : RoadClass) : Decidable (a < b) :=
  inferInstanceAs (Decidable (a.toNat < b.toNat))

/-- Modelled from the spec: `stringToRoadClass` (not among the sources) on
the names the level table uses; any other name falls back to the least
important class. -/
def stringToRoadClass (s : String) : RoadClass :=
  if s = "Motorway" then .kMotorway
  else if s = "Trunk" then .kTrunk
  else if s = "Primary" then .kPrimary
  else if s = "Secondary" then .kSecondary
  else if s = "Tertiary" then .kTertiary
  else if s = "Unclassified" then .kUnclassified
  else if s = "Residential" then .kResidential
  else .kServiceOther

/-- Modelled from the spec: the identifier (`baldr::GraphId`, declared in
`baldr/graphid.h`, which is not among the sources): logically a triple of
tile index, level and object index. -/
structure GraphId where
  tileid : Nat
  level : Nat
  id : Nat
deriving DecidableEq, Repr

/-- Modelled from the spec: the invalid sentinel, the identifier with all
bits set: every field at its maximum (22-bit tile index, 3-bit level, 21-bit
object index).  It is also the value of a default-constructed `GraphId`. -/
def kInvalidGraphId : GraphId := ⟨4194303, 7, 2097151⟩

/-- Modelled from the spec: the validity predicate (`GraphId::Is_Valid`). -/
def GraphId.Is_Valid (g : GraphId) : Bool := g != kInvalidGraphId

/-- Conversion of an `int32_t` to `uint32_t`, as happens where a tile index
is handed to the `GraphId` constructor. -/
def toUInt32 (i : Int) : Nat := (i % 4294967296).toNat

/-- One entry of the hierarchy (`TileLevel`). -/
structure TileLevel where
  level : Nat
  importance : RoadClass
  name : String
  tiles : Tiles
deriving DecidableEq, Repr

/-- The failures the hierarchy queries can raise. -/
inductive Error
  | invalidLevel
  | outOfRange
deriving DecidableEq, Repr

namespace TileHierarchy

/-- The static level table (`TileHierarchy::levels`). -/
def levels : List TileLevel :=
  [ ⟨0, stringToRoadClass "Primary", "highway", ⟨-180, -90, 2.8125, 128, 64⟩⟩,
    ⟨1, stringToRoadClass "Tertiary", "arterial", ⟨-180, -90, 0.703125, 512, 256⟩⟩,
    ⟨2, stringToRoadClass "ServiceOther", "local", ⟨-180, -90, 0.17578125, 2048, 1024⟩⟩ ]

/-- The transit level (`TileHierarchy::GetTransitLevel`): a quarter-degree
tiling of the extent (-180,-90)..(180,90), hence 1440 columns and 720 rows. -/
def GetTransitLevel : TileLevel :=
  ⟨3, stringToRoadClass "ServiceOther", "transit", ⟨-180, -90, 0.25, 1440, 720⟩⟩

/-- Indexing with a range check (`std::vector::at`). -/
def levelsAt (i : Nat) : Except Error TileLevel :=
  if h : i < levels.length then .ok (levels.get ⟨i, h⟩) else .error .outOfRange

/-- The bounding rectangle of a tile identifier
(`TileHierarchy::GetGraphIdBoundingBox`).  The `assert` on validity is a
debug aid that release builds compile out; the invalid sentinel carries
level 7 and is rejected by the range check of `at`. -/
def GetGraphIdBoundingBox (id : GraphId) : Except Error AABB2 :=
  match levelsAt id.level with
  | .ok tileLevel => .ok (tileLevel.tiles.TileBounds id.tileid)
  | .error e => .error e

/-- The identifier of the tile holding a point at a level
(`TileHierarchy::GetGraphId`); the invalid sentinel when the level is not
in the table or the tiling reports no tile. -/
def GetGraphId (pointll : PointLL) (level : Nat) : GraphId :=
  if h : level < levels.length then
    let tile_id := (levels.get ⟨level, h⟩).tiles.TileId pointll
    if tile_id ≥ 0 then ⟨toUInt32 tile_id, level, 0⟩ else kInvalidGraphId
  else kInvalidGraphId

/-- The hierarchy level of a road class (`TileHierarchy::get_level`). -/
def get_level (roadclass : RoadClass) : Nat :=
  if roadclass ≤ (levels.get ⟨0, by decide⟩).importance then 0
  else if roadclass ≤ (levels.get ⟨1, by decide⟩).importance then 1
  else 2

/-- The classification as the spec words it: 0 when the road class is at
least as important as the cutoff of level 0 (Primary), else 1 when at least
as important as the cutoff of level 1 (Tertiary), else the number of the last
regular level. -/
def levelForImportance_spec (roadclass : RoadClass) : Nat :=
  if roadclass ≤ RoadClass.kPrimary then 0
  else if roadclass ≤ RoadClass.kTertiary then 1
  else levels.length - 1

/-- The highest level number in use (`TileHierarchy::get_max_level`). -/
def get_max_level : Nat := GetTransitLevel.level

/-- The identifiers of the tiles of one level that a rectangle meets
(`TileHierarchy::GetGraphIds(bbox, level)`).  The tiling primitive's
`TileList`, whose geometry the hierarchy leaves to the primitive, is
supplied as `tileList`. -/
def GetGraphIdsAt (tileList : Tiles → AABB2 → List Int) (bbox : AABB2) (level : Nat) :
    List GraphId :=
  if h : level < levels.length then
    (tileList (levels.get ⟨level, h⟩).tiles bbox).map
      (fun tile_id => ⟨toUInt32 tile_id, level, 0⟩)
  else []

/-- The identifiers of the tiles of every level that a rectangle meets
(`TileHierarchy::GetGraphIds(bbox)`): the loop over the level table,
appending each level's identifiers. -/
def GetGraphIds (tileList : Tiles → AABB2 → List Int) (bbox : AABB2) : List GraphId :=
  levels.foldl (fun ids entry => ids ++ GetGraphIdsAt tileList bbox entry.level) []

/-- The tiling of a level (`TileHierarchy::get_tiling`). -/
def get_tiling (level : Nat) : Except Error Tiles :=
  let transit_level := GetTransitLevel
  if h : level < levels.length then .ok (levels.get ⟨level, h⟩).tiles
  else if level = transit_level.level then .ok transit_level.tiles
  else .error .invalidLevel

/-- The body of `TileHierarchy::parent` over a tiling lookup `tilingOf`; the
level arguments are narrowed to `uint8_t` as at the call of `get_tiling`. -/
def parentFrom (tilingOf : Nat → Except Error Tiles) (child_tile_id : GraphId) :
    Except Error GraphId :=
  if child_tile_id.level = 0 then .ok kInvalidGraphId
  else
    let parent_level := child_tile_id.level - 1
    match tilingOf (parent_level % 256) with
    | .error e => .error e
    | .ok parent_tiling =>
      match tilingOf (child_tile_id.level % 256) with
      | .error e => .error e
      | .ok child_tiling =>
        let corner := (child_tiling.Base child_tile_id.tileid).add
          ⟨parent_tiling.TileSize / 2, parent_tiling.TileSize / 2⟩
        let parent_tile_index := parent_tiling.TileId corner
        .ok ⟨toUInt32 parent_tile_index, parent_level, 0⟩

/-- The tile one level up that is picked for a tile (`TileHierarchy::parent`). -/
def parent (child_tile_id : GraphId) : Except Error GraphId :=
  parentFrom get_tiling child_tile_id

end TileHierarchy

end baldr

open midgard baldr baldr.TileHierarchy


/-! ## The level table, entry by entry -/

theorem levels_length : levels.length = 3 := rfl

theorem get_tiling_zero : get_tiling 0 = .ok ⟨-180, -90, 45/16, 128, 64⟩ := by
  norm_num [get_tiling, levels]

theorem get_tiling_one : get_tiling 1 = .ok ⟨-180, -90, 45/64, 512, 256⟩ := by
  norm_num [get_tiling, levels]

theorem get_tiling_two : get_tiling 2 = .ok ⟨-180, -90, 45/256, 2048, 1024⟩ := by
  norm_num [get_tiling, levels]

theorem toUInt32_of_nonneg {i : Int} (h0 : 0 ≤ i) (h1 : i < 4294967296) :
    toUInt32 i = i.toNat := by
  unfold toUInt32
  rw [Int.emod_eq_of_lt h0 h1]

/-! ## Parent of a level-0 tile -/

/-- C3: a tile of level 0 has no parent: whatever its tile index and object
index, and whatever the tiling lookup would answer (it is not consulted),
`parent` returns the invalid sentinel. -/
theorem parent_level_zero (tilingOf : Nat → Except Error Tiles) (i o : Nat) :
    parentFrom tilingOf ⟨i, 0, o⟩ = .ok kInvalidGraphId ∧
      parent ⟨i, 0, o⟩ = .ok kInvalidGraphId := by
  constructor <;> simp [parent, parentFrom]

/-! ## Road class to level -/

/-- C5: `get_level` is the three-way classification of the spec (0 up to the
cutoff of level 0, Primary; else 1 up to the cutoff of level 1, Tertiary;
else the last regular level, 2), on every road class, and its result is an
index into the level table. -/
theorem get_level_eq_spec (rc : RoadClass) :
    get_level rc = levelForImportance_spec rc ∧
      get_level rc < levels.length ∧
      (get_level rc = 0 ↔ rc ≤ RoadClass.kPrimary) ∧
      (get_level rc = 1 ↔ ¬ rc ≤ RoadClass.kPrimary ∧ rc ≤ RoadClass.kTertiary) ∧
      (get_level rc = 2 ↔ ¬ rc ≤ RoadClass.kTertiary) := by
  cases rc <;> decide

/-- C6: `get_level` is monotone: a road class at least as important as
another never gets a larger level number. -/
theorem get_level_mono (a b : RoadClass) (h : a ≤ b) : get_level a ≤ get_level b := by
  revert h
  cases a <;> cases b <;> decide

theorem get_level_mono_witness :
    RoadClass.kPrimary ≤ RoadClass.kUnclassified ∧
      get_level RoadClass.kPrimary ≤ get_level RoadClass.kUnclassified :=
  ⟨by decide, get_level_mono RoadClass.kPrimary RoadClass.kUnclassified (by decide)⟩

/-! ## Identifiers of the tiles a rectangle meets -/

/-- C7: over all levels, `GetGraphIds` is the concatenation of the
single-level results for levels 0, 1 and 2, in that order and with nothing
added, dropped or reordered; no identifier in it is at the transit level. -/
theorem GetGraphIds_eq_append (tileList : Tiles → AABB2 → List Int) (bbox : AABB2) :
    GetGraphIds tileList bbox =
        GetGraphIdsAt tileList bbox 0 ++ GetGraphIdsAt tileList bbox 1 ++
          GetGraphIdsAt tileList bbox 2 ∧
      (GetGraphIds tileList bbox).all (fun g => g.level != GetTransitLevel.level) = true := by
  have h : GetGraphIds tileList bbox =
      GetGraphIdsAt tileList bbox 0 ++ GetGraphIdsAt tileList bbox 1 ++
        GetGraphIdsAt tileList bbox 2 := by
    simp [GetGraphIds, levels]
  refine ⟨h, ?_⟩
  rw [h]
  simp [GetGraphIdsAt, levels, GetTransitLevel]

/-- C8: for a level below 3, `GetGraphIds(bbox, level)` is the tiling's
`TileList(bbox)` mapped, element by element and in order, to
`GraphId(tile_index, level, 0)`, so it has the same length; for a level of 3
or more (the transit level 3 and 99 among them) it is empty. -/
theorem GetGraphIdsAt_spec (tileList : Tiles → AABB2 → List Int) (bbox : AABB2)
    (level : Nat) :
    (level < 3 → ∃ l, levels.get? level = some l ∧ l.level = level ∧
        GetGraphIdsAt tileList bbox level =
          (tileList l.tiles bbox).map (fun tile_id => ⟨toUInt32 tile_id, level, 0⟩) ∧
        (GetGraphIdsAt tileList bbox level).length = (tileList l.tiles bbox).length) ∧
      (3 ≤ level → GetGraphIdsAt tileList bbox level = []) := by
  constructor
  · intro h
    have hl : level < levels.length := by simpa [levels_length] using h
    refine ⟨levels.get ⟨level, hl⟩, ?_, ?_, ?_, ?_⟩
    · simp [List.get?_eq_get hl]
    · interval_cases level <;> rfl
    · simp [GetGraphIdsAt, hl]
    · simp [GetGraphIdsAt, hl]
  · intro h
    have hl : ¬ level < levels.length := by simpa [levels_length] using h
    simp [GetGraphIdsAt, hl]

theorem GetGraphIdsAt_spec_witness :
    GetGraphIdsAt (fun _ _ => [0, 1, 128]) ⟨-180, -90, -177, -87⟩ 0 =
        [⟨0, 0, 0⟩, ⟨1, 0, 0⟩, ⟨128, 0, 0⟩] ∧
      GetGraphIdsAt (fun _ _ => [0, 1, 128]) ⟨-180, -90, -177, -87⟩ 99 = [] := by
  obtain ⟨h1, h2⟩ := GetGraphIdsAt_spec (fun _ _ => [0, 1, 128]) ⟨-180, -90, -177, -87⟩ 0
  obtain ⟨l, -, -, h3, -⟩ := h1 (by decide)
  refine ⟨?_, (GetGraphIdsAt_spec (fun _ _ => [0, 1, 128]) ⟨-180, -90, -177, -87⟩ 99).2
    (by decide)⟩
  rw [h3]
  decide

/-! ## Identifier of the tile holding a point -/

/-- C9: at a level that is no index of the regular level table (3, the
transit level, 99, any level of 3 or more) `GetGraphId` returns the invalid
sentinel for every point; it has no failure path. -/
theorem GetGraphId_unsupported_level (pointll : PointLL) (level : Nat) (h : 3 ≤ level) :
    GetGraphId pointll level = kInvalidGraphId := by
  have hl : ¬ level < levels.length := by simpa [levels_length] using h
  simp [GetGraphId, hl]

theorem GetGraphId_unsupported_level_witness :
    GetGraphId ⟨13, 52⟩ 3 = kInvalidGraphId ∧ GetGraphId ⟨13, 52⟩ 99 = kInvalidGraphId :=
  ⟨GetGraphId_unsupported_level ⟨13, 52⟩ 3 (by decide),
    GetGraphId_unsupported_level ⟨13, 52⟩ 99 (by decide)⟩

/-! ## The uniform grid -/

theorem truncToInt_of_nonneg {q : ℚ} (h : 0 ≤ q) : truncToInt q = ⌊q⌋ := by
  simp [truncToInt, h]

theorem midgard.Tiles.Row_mem (t : Tiles) (hs : 0 < t.tilesize) (hn : 0 < t.nrows) {y : ℚ}
    (h1 : t.miny ≤ y) (h2 : y ≤ t.maxy) : 0 ≤ t.Row y ∧ t.Row y < t.nrows := by
  unfold Tiles.Row
  rw [if_neg (by rintro (h | h) <;> linarith)]
  split_ifs with he
  · omega
  · have hlt : y < t.maxy := lt_of_le_of_ne h2 he
    have h0 : 0 ≤ (y - t.miny) / t.tilesize := div_nonneg (by linarith) hs.le
    rw [truncToInt_of_nonneg h0]
    refine ⟨Int.floor_nonneg.mpr h0, Int.floor_lt.mpr ?_⟩
    rw [div_lt_iff₀ hs]
    unfold Tiles.maxy at hlt
    linarith

theorem midgard.Tiles.Col_mem (t : Tiles) (hs : 0 < t.tilesize) (hn : 0 < t.ncolumns) {x : ℚ}
    (h1 : t.minx ≤ x) (h2 : x ≤ t.maxx) : 0 ≤ t.Col x ∧ t.Col x < t.ncolumns := by
  unfold Tiles.Col
  rw [if_neg (by rintro (h | h) <;> linarith)]
  split_ifs with he
  · omega
  · have hlt : x < t.maxx := lt_of_le_of_ne h2 he
    have h0 : 0 ≤ (x - t.minx) / t.tilesize := div_nonneg (by linarith) hs.le
    rw [truncToInt_of_nonneg h0]
    refine ⟨Int.floor_nonneg.mpr h0, Int.floor_lt.mpr ?_⟩
    rw [div_lt_iff₀ hs]
    unfold Tiles.maxx at hlt
    linarith

theorem midgard.Tiles.TileId_outside (t : Tiles) (c : PointLL)
    (h : c.y < t.miny ∨ c.x < t.minx ∨ c.y > t.maxy ∨ c.x > t.maxx) : t.TileId c = -1 := by
  simp [Tiles.TileId, h]

theorem midgard.Tiles.TileId_inside (t : Tiles) (hs : 0 < t.tilesize) (hc : 0 < t.ncolumns)
    (hr : 0 < t.nrows) (c : PointLL) (hx1 : t.minx ≤ c.x) (hx2 : c.x ≤ t.maxx)
    (hy1 : t.miny ≤ c.y) (hy2 : c.y ≤ t.maxy) :
    0 ≤ t.TileId c ∧ t.TileId c < t.nrows * t.ncolumns := by
  unfold Tiles.TileId
  rw [if_neg (by rintro (h | h | h | h) <;> linarith)]
  obtain ⟨r0, r1⟩ := t.Row_mem hs hr hy1 hy2
  obtain ⟨c0, c1⟩ := t.Col_mem hs hc hx1 hx2
  constructor
  · exact add_nonneg (mul_nonneg r0 hc.le) c0
  · have : (t.Row c.y + 1) * t.ncolumns ≤ t.nrows * t.ncolumns :=
      mul_le_mul_of_nonneg_right (by omega) hc.le
    linarith

theorem midgard.Tiles.TileId_lt (t : Tiles) (hs : 0 < t.tilesize) (hc : 0 < t.ncolumns)
    (hr : 0 < t.nrows) (c : PointLL) : t.TileId c < t.nrows * t.ncolumns := by
  by_cases h : c.y < t.miny ∨ c.x < t.minx ∨ c.y > t.maxy ∨ c.x > t.maxx
  · rw [t.TileId_outside c h]
    have := mul_pos hr hc
    omega
  · simp only [not_or, not_lt] at h
    exact (t.TileId_inside hs hc hr c h.2.1 h.2.2.2 h.1 h.2.2.1).2

/-- The regular levels are grids with a positive tile edge and positive
column and row counts, from the origin (-180,-90) to (180,90), and hold
fewer than 2^32 tiles. -/
theorem levels_grid (l : TileLevel) (h : l ∈ levels) :
    0 < l.tiles.tilesize ∧ 0 < l.tiles.ncolumns ∧ 0 < l.tiles.nrows ∧
      l.tiles.minx = -180 ∧ l.tiles.miny = -90 ∧ l.tiles.maxx = 180 ∧ l.tiles.maxy = 90 ∧
      l.tiles.nrows * l.tiles.ncolumns < 4294967296 := by
  simp only [levels, List.mem_cons, List.mem_singleton, List.not_mem_nil, or_false] at h
  rcases h with rfl | rfl | rfl <;> norm_num [Tiles.maxx, Tiles.maxy]

/-- C10: at a level below 3, `GetGraphId` is `GraphId(t, level, 0)` when the
tiling of that level reports a tile index `t ≥ 0` for the point, and the
invalid sentinel when it reports a negative index; every point with
-180 ≤ lng ≤ 180 and -90 ≤ lat ≤ 90 gets a valid identifier of that level,
with object index 0, whose tile index is below rows times columns. -/
theorem GetGraphId_supported_level (pointll : PointLL) (level : Nat) (h : level < 3) :
    ∃ l, levels.get? level = some l ∧
      (0 ≤ l.tiles.TileId pointll →
        GetGraphId pointll level = ⟨(l.tiles.TileId pointll).toNat, level, 0⟩) ∧
      (l.tiles.TileId pointll < 0 → GetGraphId pointll level = kInvalidGraphId) ∧
      (-180 ≤ pointll.x → pointll.x ≤ 180 → -90 ≤ pointll.y → pointll.y ≤ 90 →
        (GetGraphId pointll level).Is_Valid = true ∧
          (GetGraphId pointll level).level = level ∧
          (GetGraphId pointll level).id = 0 ∧
          ((GetGraphId pointll level).tileid : Int) < l.tiles.nrows * l.tiles.ncolumns) := by
  have hl : level < levels.length := by simpa [levels_length] using h
  obtain ⟨hs, hc, hr, hminx, hminy, hmaxx, hmaxy, hsmall⟩ :=
    levels_grid (levels.get ⟨level, hl⟩) (List.get_mem _ _ _)
  have hlt := (levels.get ⟨level, hl⟩).tiles.TileId_lt hs hc hr pointll
  have hpos : 0 ≤ (levels.get ⟨level, hl⟩).tiles.TileId pointll →
      GetGraphId pointll level =
        ⟨((levels.get ⟨level, hl⟩).tiles.TileId pointll).toNat, level, 0⟩ := by
    intro h0
    simp only [GetGraphId, hl, dite_true, ge_iff_le, h0, if_true]
    rw [toUInt32_of_nonneg h0 (by omega)]
  refine ⟨levels.get ⟨level, hl⟩, by simp [List.get?_eq_get hl], hpos, ?_, ?_⟩
  · intro hneg
    simp only [GetGraphId, hl, dite_true, ge_iff_le, not_le.mpr hneg, if_false]
  · intro hx1 hx2 hy1 hy2
    obtain ⟨h0, h1⟩ := (levels.get ⟨level, hl⟩).tiles.TileId_inside hs hc hr pointll
      (by rw [hminx]; exact hx1) (by rw [hmaxx]; exact hx2)
      (by rw [hminy]; exact hy1) (by rw [hmaxy]; exact hy2)
    rw [hpos h0]
    refine ⟨?_, rfl, rfl, ?_⟩
    · simp [GraphId.Is_Valid, kInvalidGraphId]
    · show (((levels.get ⟨level, hl⟩).tiles.TileId pointll).toNat : Int) < _
      rw [Int.toNat_of_nonneg h0]
      exact h1

theorem GetGraphId_supported_level_witness :
    (GetGraphId ⟨13, 52⟩ 2).Is_Valid = true ∧ (GetGraphId ⟨13, 52⟩ 2).level = 2 := by
  obtain ⟨l, -, -, -, hin⟩ := GetGraphId_supported_level ⟨13, 52⟩ 2 (by decide)
  obtain ⟨h1, h2, -, -⟩ := hin (by norm_num) (by norm_num) (by norm_num) (by norm_num)
  exact ⟨h1, h2⟩

/-! ## Tiles of a grid by row and column -/

theorem grid_ediv (a b n : Int) (h0 : 0 ≤ b) (h1 : b < n) : (a * n + b) / n = a := by
  have hn : n ≠ 0 := by omega
  rw [add_comm, Int.add_mul_ediv_right _ _ hn, Int.ediv_eq_zero_of_lt h0 h1, zero_add]

theorem midgard.Tiles.Base_row_col (t : Tiles) (r c : Int) (hr : 0 ≤ r) (hc0 : 0 ≤ c)
    (hc1 : c < t.ncolumns) :
    t.Base (r * t.ncolumns + c) = ⟨t.minx + c * t.tilesize, t.miny + r * t.tilesize⟩ := by
  have hn : 0 ≤ t.ncolumns := by omega
  have h0 : 0 ≤ r * t.ncolumns + c := add_nonneg (mul_nonneg hr hn) hc0
  unfold Tiles.Base
  simp only [Int.tdiv_eq_ediv h0 hn, grid_ediv r c t.ncolumns hc0 hc1]
  congr 2
  ring_nf

theorem midgard.Tiles.TileBounds_row_col (t : Tiles) (r c : Int) (hr : 0 ≤ r) (hc0 : 0 ≤ c)
    (hc1 : c < t.ncolumns) :
    t.TileBounds (r * t.ncolumns + c) =
      ⟨t.minx + c * t.tilesize, t.miny + r * t.tilesize,
        t.minx + c * t.tilesize + t.tilesize, t.miny + r * t.tilesize + t.tilesize⟩ := by
  unfold Tiles.TileBounds
  simp only [t.Base_row_col r c hr hc0 hc1]

/-- A tile index below rows times columns splits into a row and a column
of the grid. -/
theorem grid_split (q n m : Int) (hn : 0 < n) (h0 : 0 ≤ q) (h1 : q < m * n) :
    q = q / n * n + q % n ∧ 0 ≤ q / n ∧ q / n < m ∧ 0 ≤ q % n ∧ q % n < n := by
  refine ⟨?_, Int.ediv_nonneg h0 hn.le, Int.ediv_lt_of_lt_mul hn h1, Int.emod_nonneg _ (by omega),
    Int.emod_lt_of_pos _ hn⟩
  have := Int.emod_add_ediv q n
  linarith [mul_comm n (q / n)]

/-! ## Nesting of a grid in the grid four times coarser -/

/-- On one axis, cell `c` of the fine grid lies within cell `c / 4` of the
grid whose cells are four times as long. -/
theorem cell_within (s : ℚ) (hs : 0 < s) (c : Int) :
    ((c / 4 : Int) : ℚ) * (4 * s) ≤ c * s ∧
      (c : ℚ) * s + s ≤ ((c / 4 : Int) : ℚ) * (4 * s) + 4 * s := by
  have h1 : 4 * (c / 4) ≤ c := by omega
  have h2 : c + 1 ≤ 4 * (c / 4) + 4 := by omega
  have e1 : (4 * ((c / 4 : Int) : ℚ)) ≤ c := by exact_mod_cast h1
  have e2 : (c : ℚ) + 1 ≤ 4 * ((c / 4 : Int) : ℚ) + 4 := by exact_mod_cast h2
  constructor <;> nlinarith

/-- On one axis, a coarse cell `a` whose interior meets that of fine cell `c`
is cell `c / 4`. -/
theorem cell_meet (s : ℚ) (hs : 0 < s) (a c : Int)
    (h1 : (a : ℚ) * (4 * s) < c * s + s) (h2 : (c : ℚ) * s < a * (4 * s) + 4 * s) :
    a = c / 4 := by
  have e1 : (4 * a : ℚ) < c + 1 := by
    by_contra hh
    push_neg at hh
    nlinarith
  have e2 : (c : ℚ) < 4 * a + 4 := by
    by_contra hh
    push_neg at hh
    nlinarith
  have i1 : 4 * a < c + 1 := by exact_mod_cast e1
  have i2 : c < 4 * a + 4 := by exact_mod_cast e2
  omega

/-- Two grids with one origin, the coarse one with tiles four times as long
and a quarter of the columns and rows: each fine tile lies in the coarse tile
at a quarter of its column and row, and meets the interior of no other. -/
theorem nest_in_coarser (coarse fine : Tiles) (hs : 0 < fine.tilesize)
    (hsz : coarse.tilesize = 4 * fine.tilesize)
    (hx : coarse.minx = fine.minx) (hy : coarse.miny = fine.miny)
    (hcol : fine.ncolumns = 4 * coarse.ncolumns) (hrow : fine.nrows = 4 * coarse.nrows)
    (hC : 0 < coarse.ncolumns) (t : Int) (h0 : 0 ≤ t)
    (ht : t < fine.nrows * fine.ncolumns) :
    0 ≤ t / fine.ncolumns / 4 * coarse.ncolumns + t % fine.ncolumns / 4 ∧
      t / fine.ncolumns / 4 * coarse.ncolumns + t % fine.ncolumns / 4 <
        coarse.nrows * coarse.ncolumns ∧
      (coarse.TileBounds (t / fine.ncolumns / 4 * coarse.ncolumns + t % fine.ncolumns / 4)).ContainsBox
        (fine.TileBounds t) ∧
      (coarse.TileBounds (t / fine.ncolumns / 4 * coarse.ncolumns + t % fine.ncolumns / 4)).InteriorsMeet
        (fine.TileBounds t) ∧
      ∀ q : Int, 0 ≤ q → q < coarse.nrows * coarse.ncolumns →
        (coarse.TileBounds q).InteriorsMeet (fine.TileBounds t) →
        q = t / fine.ncolumns / 4 * coarse.ncolumns + t % fine.ncolumns / 4 := by
  have hN : 0 < fine.ncolumns := by omega
  obtain ⟨et, r0, r1, c0, c1⟩ := grid_split t fine.ncolumns fine.nrows hN h0 ht
  generalize t / fine.ncolumns = r at et r0 r1 ⊢
  generalize t % fine.ncolumns = c at et c0 c1 ⊢
  have hfine := fine.TileBounds_row_col r c r0 c0 c1
  rw [← et] at hfine
  have r40 : 0 ≤ r / 4 := by omega
  have r41 : r / 4 < coarse.nrows := by omega
  have c40 : 0 ≤ c / 4 := by omega
  have c41 : c / 4 < coarse.ncolumns := by omega
  have hcoarse := coarse.TileBounds_row_col (r / 4) (c / 4) r40 c40 c41
  obtain ⟨x1, x2⟩ := cell_within fine.tilesize hs c
  obtain ⟨y1, y2⟩ := cell_within fine.tilesize hs r
  have hp1 : (r / 4 + 1) * coarse.ncolumns ≤ coarse.nrows * coarse.ncolumns :=
    mul_le_mul_of_nonneg_right (by omega) hC.le
  refine ⟨add_nonneg (mul_nonneg r40 hC.le) c40, by linarith, ?_, ?_, ?_⟩
  · rw [hcoarse, hfine]
    simp only [AABB2.ContainsBox, hsz, hx, hy]
    refine ⟨?_, ?_, ?_, ?_⟩ <;> linarith
  · rw [hcoarse, hfine]
    simp only [AABB2.InteriorsMeet, hsz, hx, hy]
    refine ⟨?_, ?_, ?_, ?_⟩ <;> linarith
  · intro q q0 q1 hq
    obtain ⟨eq, a0, a1, b0, b1⟩ := grid_split q coarse.ncolumns coarse.nrows hC q0 q1
    generalize q / coarse.ncolumns = a at eq a0 a1
    generalize q % coarse.ncolumns = b at eq b0 b1
    have hqb := coarse.TileBounds_row_col a b a0 b0 b1
    rw [← eq] at hqb
    rw [hqb, hfine] at hq
    simp only [AABB2.InteriorsMeet, hsz, hx, hy] at hq
    obtain ⟨m1, m2, m3, m4⟩ := hq
    have eb : b = c / 4 := cell_meet fine.tilesize hs b c (by linarith) (by linarith)
    have ea : a = r / 4 := cell_meet fine.tilesize hs a r (by linarith) (by linarith)
    rw [eq, ea, eb]

/-- C4: the grids of consecutive regular levels nest.  For a tile `t` of
level n+1 (n = 0 or 1) with column `c = t % columns` and row `r = t / columns`,
the level-n tile at column `c / 4` and row `r / 4` is a tile of the level-n
grid, its rectangle contains the rectangle of `t` and their interiors
overlap; it is the only one: a level-n tile whose interior meets that of `t`
is that tile, so no finer tile straddles a coarser tile boundary. -/
theorem levels_nest (n : Nat) (coarse fine : TileLevel)
    (hc : levels.get? n = some coarse) (hf : levels.get? (n + 1) = some fine)
    (t : Int) (h0 : 0 ≤ t) (ht : t < fine.tiles.nrows * fine.tiles.ncolumns) :
    0 ≤ t / fine.tiles.ncolumns / 4 * coarse.tiles.ncolumns + t % fine.tiles.ncolumns / 4 ∧
      t / fine.tiles.ncolumns / 4 * coarse.tiles.ncolumns + t % fine.tiles.ncolumns / 4 <
        coarse.tiles.nrows * coarse.tiles.ncolumns ∧
      (coarse.tiles.TileBounds
          (t / fine.tiles.ncolumns / 4 * coarse.tiles.ncolumns +
            t % fine.tiles.ncolumns / 4)).ContainsBox (fine.tiles.TileBounds t) ∧
      (coarse.tiles.TileBounds
          (t / fine.tiles.ncolumns / 4 * coarse.tiles.ncolumns +
            t % fine.tiles.ncolumns / 4)).InteriorsMeet (fine.tiles.TileBounds t) ∧
      ∀ q : Int, 0 ≤ q → q < coarse.tiles.nrows * coarse.tiles.ncolumns →
        (coarse.tiles.TileBounds q).InteriorsMeet (fine.tiles.TileBounds t) →
        q = t / fine.tiles.ncolumns / 4 * coarse.tiles.ncolumns +
          t % fine.tiles.ncolumns / 4 := by
  have hn : n + 1 < 3 := by
    have := (List.get?_eq_some.mp hf).1
    simpa [levels_length] using this
  have hn2 : n = 0 ∨ n = 1 := by omega
  refine nest_in_coarser coarse.tiles fine.tiles ?_ ?_ ?_ ?_ ?_ ?_ ?_ t h0 ht <;>
    rcases hn2 with rfl | rfl <;>
    simp only [levels, List.get?_cons_zero, List.get?_cons_succ, zero_add,
      Option.some.injEq] at hc hf <;>
    subst hc hf <;>
    norm_num

theorem levels_nest_witness :
    ∃ coarse fine : TileLevel, levels.get? 0 = some coarse ∧ levels.get? 1 = some fine ∧
      (coarse.tiles.TileBounds 1).ContainsBox (fine.tiles.TileBounds 519) ∧
      ¬ (coarse.tiles.TileBounds 2).InteriorsMeet (fine.tiles.TileBounds 519) := by
  refine ⟨levels.get ⟨0, by decide⟩, levels.get ⟨1, by decide⟩, rfl, rfl, ?_⟩
  obtain ⟨-, -, h1, -, h2⟩ := levels_nest 0 (levels.get ⟨0, by decide⟩)
    (levels.get ⟨1, by decide⟩) rfl rfl 519 (by decide) (by decide)
  exact ⟨h1, fun hm => absurd (h2 2 (by decide) (by decide) hm) (by decide)⟩

/-! ## The parent probe at concrete tiles -/

/-- C1, evaluated at tile 3 of level 1 (column 3, row 0, inside the 512 x 256
grid): `parent` probes two child tile edges east and north of the child's
corner, a point in the interior of tile 1 of level 0, and returns that tile;
its rectangle starts where the child's rectangle ends and so does not
contain it.  The level-0 tile that does contain the child is tile 0. -/
theorem parent_box_misses_child :
    parent ⟨3, 1, 0⟩ = .ok ⟨1, 0, 0⟩ ∧
      GetGraphIdBoundingBox ⟨3, 1, 0⟩ = .ok ⟨-11385/64, -90, -2835/16, -5715/64⟩ ∧
      GetGraphIdBoundingBox ⟨1, 0, 0⟩ = .ok ⟨-2835/16, -90, -1395/8, -1395/16⟩ ∧
      GetGraphIdBoundingBox ⟨0, 0, 0⟩ = .ok ⟨-180, -90, -2835/16, -1395/16⟩ ∧
      ¬ (AABB2.ContainsBox ⟨-2835/16, -90, -1395/8, -1395/16⟩
          ⟨-11385/64, -90, -2835/16, -5715/64⟩) ∧
      AABB2.ContainsBox ⟨-180, -90, -2835/16, -1395/16⟩
        ⟨-11385/64, -90, -2835/16, -5715/64⟩ := by
  refine ⟨?_, ?_, ?_, ?_, ?_, ?_⟩
  · simp only [parent, parentFrom]
    norm_num [get_tiling_zero, get_tiling_one, Tiles.Base, Tiles.TileId, PointLL.add,
      Tiles.TileSize, Tiles.maxx, Tiles.maxy, Tiles.Row, Tiles.Col, truncToInt, toUInt32,
      Int.tdiv]
  · norm_num [GetGraphIdBoundingBox, levelsAt, levels, Tiles.TileBounds, Tiles.Base, Int.tdiv]
  · norm_num [GetGraphIdBoundingBox, levelsAt, levels, Tiles.TileBounds, Tiles.Base, Int.tdiv]
  · norm_num [GetGraphIdBoundingBox, levelsAt, levels, Tiles.TileBounds, Tiles.Base, Int.tdiv]
  · norm_num [AABB2.ContainsBox]
  · norm_num [AABB2.ContainsBox]

/-- C2, evaluated at tile 511 of level 1 (the last column of row 0, inside
the 512 x 256 grid): the probe point lies east of longitude 180, the level-0
tiling reports no tile (-1), and the identifier `parent` builds from it
carries the tile index 2^32 - 1, which is no tile of the 128 x 64 grid. -/
theorem parent_leaves_grid :
    Tiles.TileId ⟨-180, -90, 45/16, 128, 64⟩
        ((Tiles.Base ⟨-180, -90, 45/64, 512, 256⟩ 511).add ⟨45/32, 45/32⟩) = -1 ∧
      parent ⟨511, 1, 0⟩ = .ok ⟨4294967295, 0, 0⟩ ∧
      ¬ (4294967295 < 128 * 64) := by
  refine ⟨?_, ?_, by decide⟩
  · norm_num [Tiles.Base, Tiles.TileId, PointLL.add, Tiles.maxx, Tiles.maxy, Int.tdiv]
  · simp only [parent, parentFrom]
    norm_num [get_tiling_zero, get_tiling_one, Tiles.Base, Tiles.TileId, PointLL.add,
      Tiles.TileSize, Tiles.maxx, Tiles.maxy, Tiles.Row, Tiles.Col, truncToInt, toUInt32,
      Int.tdiv]
    rfl

/-! ## Tiling lookup by level -/

theorem get_tiling_regular (level : Nat) (l : TileLevel) (h : levels.get? level = some l) :
    get_tiling level = .ok l.tiles := by
  obtain ⟨hl, e⟩ := List.get?_eq_some.mp h
  simp only [get_tiling, hl, dite_true]
  rw [e]

/-- C11: `get_tiling` returns the tiling of `levels()[level]` for a level
below 3 and the tiling of the transit level for level 3; it fails, with the
invalid-level error, exactly for the levels above 3 (99 among them). -/
theorem get_tiling_spec (level : Nat) :
    (level < 3 → ∃ l, levels.get? level = some l ∧ get_tiling level = .ok l.tiles) ∧
      (level = 3 → get_tiling level = .ok GetTransitLevel.tiles) ∧
      ((∃ e, get_tiling level = .error e) ↔ 3 < level) ∧
      (3 < level → get_tiling level = .error Error.invalidLevel) := by
  have hbig : 3 < level → get_tiling level = .error Error.invalidLevel := by
    intro h
    have h1 : ¬ level < levels.length := by simp [levels_length]; omega
    have h2 : ¬ level = GetTransitLevel.level := by simp [GetTransitLevel]; omega
    simp [get_tiling, h1, h2]
  refine ⟨?_, ?_, ⟨?_, fun h => ⟨_, hbig h⟩⟩, hbig⟩
  · intro h
    have hl : level < levels.length := by simpa [levels_length] using h
    exact ⟨levels.get ⟨level, hl⟩, by simp [List.get?_eq_get hl], by simp [get_tiling, hl]⟩
  · rintro rfl
    simp [get_tiling, levels_length, GetTransitLevel]
  · rintro ⟨e, he⟩
    by_contra hle
    have hcases : level < 3 ∨ level = 3 := by omega
    rcases hcases with h | rfl
    · have hl : level < levels.length := by simpa [levels_length] using h
      simp [get_tiling, hl] at he
    · simp [get_tiling, levels_length, GetTransitLevel] at he

theorem get_tiling_spec_witness :
    get_tiling 99 = .error Error.invalidLevel ∧
      get_tiling 3 = .ok GetTransitLevel.tiles := by
  exact ⟨(get_tiling_spec 99).2.2.2 (by decide), (get_tiling_spec 3).2.1 rfl⟩

/-! ## Bounds of an identifier -/

/-- C13: `GetGraphIdBoundingBox` serves the regular levels only: for an
identifier of level below 3 it is `TileBounds` of the tile index in the
tiling of `levels()[level]`; for an identifier of level 3 or more it fails
with the out-of-range error of `at`, also at the transit level 3, for which
`get_tiling` succeeds. -/
theorem GetGraphIdBoundingBox_spec (id : GraphId) :
    (id.level < 3 → ∃ l, levels.get? id.level = some l ∧
        GetGraphIdBoundingBox id = .ok (l.tiles.TileBounds id.tileid)) ∧
      (3 ≤ id.level → GetGraphIdBoundingBox id = .error Error.outOfRange) ∧
      (id.level = 3 → GetGraphIdBoundingBox id = .error Error.outOfRange ∧
        get_tiling id.level = .ok GetTransitLevel.tiles) := by
  have hbig : 3 ≤ id.level → GetGraphIdBoundingBox id = .error Error.outOfRange := by
    intro h
    have hl : ¬ id.level < levels.length := by simpa [levels_length] using h
    simp [GetGraphIdBoundingBox, levelsAt, hl]
  refine ⟨?_, hbig, ?_⟩
  · intro h
    have hl : id.level < levels.length := by simpa [levels_length] using h
    exact ⟨levels.get ⟨id.level, hl⟩, by simp [List.get?_eq_get hl],
      by simp [GetGraphIdBoundingBox, levelsAt, hl]⟩
  · intro h
    refine ⟨hbig (by omega), ?_⟩
    rw [h]
    simp [get_tiling, levels_length, GetTransitLevel]

theorem GetGraphIdBoundingBox_spec_witness :
    GetGraphIdBoundingBox ⟨5, 3, 0⟩ = .error Error.outOfRange ∧
      GetGraphIdBoundingBox kInvalidGraphId = .error Error.outOfRange := by
  exact ⟨(GetGraphIdBoundingBox_spec ⟨5, 3, 0⟩).2.1 (by decide),
    (GetGraphIdBoundingBox_spec kInvalidGraphId).2.1 (by decide)⟩

/-! ## The highest level -/

/-- C14: `get_max_level` is the level number of the transit level, 3, which
is the size of the level table and one more than the number of its last
entry. -/
theorem get_max_level_spec :
    get_max_level = GetTransitLevel.level ∧ get_max_level = 3 ∧
      get_max_level = levels.length ∧
      (levels.getLast?.map (fun l => l.level + 1)) = some get_max_level := by
  refine ⟨rfl, rfl, rfl, rfl⟩

/-! ## The origin corner -/

/-- C15: with the level-0 tiling of the table (origin (-180,-90), tile edge
2.8125, 128 columns, 64 rows) the origin corner (-180,-90) gets the valid
identifier `GraphId(0, 0, 0)`: it maps to tile index 0 at level 0. -/
theorem GetGraphId_origin :
    (levels.get? 0).map (fun l => l.tiles) = some ⟨-180, -90, 2.8125, 128, 64⟩ ∧
      Tiles.TileId ⟨-180, -90, 2.8125, 128, 64⟩ ⟨-180, -90⟩ = 0 ∧
      GetGraphId ⟨-180, -90⟩ 0 = ⟨0, 0, 0⟩ ∧
      (GetGraphId ⟨-180, -90⟩ 0).Is_Valid = true := by
  have h : GetGraphId ⟨-180, -90⟩ 0 = ⟨0, 0, 0⟩ := by
    norm_num [GetGraphId, levels, Tiles.TileId, Tiles.maxx, Tiles.maxy, Tiles.Row, Tiles.Col,
      truncToInt, toUInt32]
  refine ⟨rfl, ?_, h, ?_⟩
  · norm_num [Tiles.TileId, Tiles.maxx, Tiles.maxy, Tiles.Row, Tiles.Col, truncToInt]
  · rw [h]
    decide

/-! ## Invariants of the level table -/

theorem levels_pair (n : Nat) (a b : TileLevel) (ha : levels.get? n = some a)
    (hb : levels.get? (n + 1) = some b) :
    (n = 0 ∧ levels.get? 0 = some a ∧ levels.get? 1 = some b) ∨
      (n = 1 ∧ levels.get? 1 = some a ∧ levels.get? 2 = some b) := by
  have hn : n + 1 < 3 := by
    have := (List.get?_eq_some.mp hb).1
    simpa [levels_length] using this
  have hn2 : n = 0 ∨ n = 1 := by omega
  rcases hn2 with rfl | rfl
  · exact Or.inl ⟨rfl, ha, hb⟩
  · exact Or.inr ⟨rfl, ha, hb⟩

/-- C16: the level table has exactly 3 entries, entry `i` carries level
number `i`, and from each entry to the next the tile edge strictly decreases
(2.8125 > 0.703125 > 0.17578125) while the importance cutoff strictly
increases in the road-class order (Primary < Tertiary < ServiceOther). -/
theorem levels_ordered :
    levels.length = 3 ∧
      (∀ i l, levels.get? i = some l → l.level = i) ∧
      (∀ n a b, levels.get? n = some a → levels.get? (n + 1) = some b →
        b.tiles.tilesize < a.tiles.tilesize ∧ a.importance < b.importance) ∧
      levels.map (fun l => l.tiles.tilesize) = [2.8125, 0.703125, 0.17578125] ∧
      levels.map (fun l => l.importance) =
        [RoadClass.kPrimary, RoadClass.kTertiary, RoadClass.kServiceOther] := by
  refine ⟨rfl, ?_, ?_, rfl, by decide⟩
  · intro i l h
    have hi : i < 3 := by
      have := (List.get?_eq_some.mp h).1
      simpa [levels_length] using this
    interval_cases i <;>
      simp only [levels, List.get?_cons_zero, List.get?_cons_succ, Option.some.injEq] at h <;>
      subst h <;> rfl
  · intro n a b ha hb
    rcases levels_pair n a b ha hb with ⟨-, h1, h2⟩ | ⟨-, h1, h2⟩ <;>
      simp only [levels, List.get?_cons_zero, List.get?_cons_succ, Option.some.injEq]
        at h1 h2 <;>
      subst h1 h2 <;>
      refine ⟨by norm_num, by decide⟩

/-- C17: from each regular level to the next the tile edge is divided by
exactly 4; the edges are 45/16, 45/64 and 45/256. -/
theorem levels_edge_quarter (n : Nat) (a b : TileLevel) (ha : levels.get? n = some a)
    (hb : levels.get? (n + 1) = some b) :
    b.tiles.tilesize = a.tiles.tilesize / 4 ∧
      levels.map (fun l => l.tiles.tilesize) = [45 / 16, 45 / 64, 45 / 256] := by
  constructor
  · rcases levels_pair n a b ha hb with ⟨-, h1, h2⟩ | ⟨-, h1, h2⟩ <;>
      simp only [levels, List.get?_cons_zero, List.get?_cons_succ, Option.some.injEq]
        at h1 h2 <;>
      subst h1 h2 <;>
      norm_num
  · norm_num [levels]

theorem levels_edge_quarter_witness :
    ∃ a b : TileLevel, levels.get? 0 = some a ∧ levels.get? 1 = some b ∧
      b.tiles.tilesize = a.tiles.tilesize / 4 :=
  ⟨levels.get ⟨0, by decide⟩, levels.get ⟨1, by decide⟩, rfl, rfl,
    (levels_edge_quarter 0 (levels.get ⟨0, by decide⟩) (levels.get ⟨1, by decide⟩)
      rfl rfl).1⟩

/-- C18, as the code has it: from each regular level to the next the column
count and the row count are multiplied by exactly 4 (128, 512, 2048 columns
and 64, 256, 1024 rows). -/
theorem levels_counts_quadruple (n : Nat) (a b : TileLevel) (ha : levels.get? n = some a)
    (hb : levels.get? (n + 1) = some b) :
    b.tiles.ncolumns = 4 * a.tiles.ncolumns ∧ b.tiles.nrows = 4 * a.tiles.nrows := by
  rcases levels_pair n a b ha hb with ⟨-, h1, h2⟩ | ⟨-, h1, h2⟩ <;>
    simp only [levels, List.get?_cons_zero, List.get?_cons_succ, Option.some.injEq]
      at h1 h2 <;>
    subst h1 h2 <;>
    norm_num

theorem levels_counts_quadruple_witness :
    ∃ a b : TileLevel, levels.get? 1 = some a ∧ levels.get? 2 = some b ∧
      b.tiles.ncolumns = 4 * a.tiles.ncolumns ∧ b.tiles.nrows = 4 * a.tiles.nrows :=
  ⟨levels.get ⟨1, by decide⟩, levels.get ⟨2, by decide⟩, rfl, rfl,
    levels_counts_quadruple 1 (levels.get ⟨1, by decide⟩) (levels.get ⟨2, by decide⟩)
      rfl rfl⟩

/-- C18, as stated, fails: the counts of consecutive levels are not doubled
(level 1 has 512 columns, level 0 has 128). -/
theorem levels_counts_not_doubled :
    ¬ (∀ (n : Nat) (a b : TileLevel), levels.get? n = some a → levels.get? (n + 1) = some b →
        b.tiles.ncolumns = 2 * a.tiles.ncolumns ∧ b.tiles.nrows = 2 * a.tiles.nrows) := by
  intro h
  have := (h 0 (levels.get ⟨0, by decide⟩) (levels.get ⟨1, by decide⟩) rfl rfl).1
  revert this
  decide

/-! ## The level of a road class is the coarsest that admits it -/

/-- C19: the level `get_level` assigns to a road class admits it (the class
is within that level's importance cutoff), no coarser regular level does
(the class is beyond the cutoff of every smaller level number), and the
cutoff of the last level, ServiceOther, is the least important road class,
so the last level admits every class. -/
theorem get_level_least (rc : RoadClass) :
    (∃ l, levels.get? (get_level rc) = some l ∧ rc ≤ l.importance) ∧
      (∀ L l, L < get_level rc → levels.get? L = some l → l.importance < rc) ∧
      (levels.getLast?.map (fun l => l.importance)) = some RoadClass.kServiceOther ∧
      rc ≤ RoadClass.kServiceOther := by
  refine ⟨?_, ?_, by decide, by cases rc <;> decide⟩
  · refine ⟨levels.get ⟨get_level rc, by cases rc <;> decide⟩, ?_, ?_⟩
    · cases rc <;> rfl
    · cases rc <;> decide
  · intro L l hL hget
    have h2 : get_level rc ≤ 2 := by cases rc <;> decide
    have hL2 : L = 0 ∨ L = 1 := by omega
    rcases hL2 with rfl | rfl <;>
      simp only [levels, List.get?_cons_zero, List.get?_cons_succ, Option.some.injEq]
        at hget <;>
      subst hget <;>
      revert hL <;>
      cases rc <;>
      decide

/-! ## The tile of a point in a known cell -/

theorem midgard.Tiles.Col_of_cell (t : Tiles) (hs : 0 < t.tilesize) (k : Int) (x : ℚ)
    (hk0 : 0 ≤ k) (hk1 : k < t.ncolumns) (h1 : t.minx + k * t.tilesize ≤ x)
    (h2 : x < t.minx + k * t.tilesize + t.tilesize) : t.Col x = k := by
  have hk0q : (0 : ℚ) ≤ k := by exact_mod_cast hk0
  have hk1q : (k : ℚ) + 1 ≤ t.ncolumns := by exact_mod_cast hk1
  have hmin : t.minx ≤ x := by nlinarith
  have hmax : x < t.maxx := by
    unfold Tiles.maxx
    nlinarith
  unfold Tiles.Col
  rw [if_neg (by rintro (h | h) <;> linarith), if_neg (ne_of_lt hmax)]
  have h0 : 0 ≤ (x - t.minx) / t.tilesize := div_nonneg (by linarith) hs.le
  rw [truncToInt_of_nonneg h0, Int.floor_eq_iff]
  constructor
  · rw [le_div_iff₀ hs]
    linarith
  · rw [div_lt_iff₀ hs]
    linarith

theorem midgard.Tiles.Row_of_cell (t : Tiles) (hs : 0 < t.tilesize) (k : Int) (y : ℚ)
    (hk0 : 0 ≤ k) (hk1 : k < t.nrows) (h1 : t.miny + k * t.tilesize ≤ y)
    (h2 : y < t.miny + k * t.tilesize + t.tilesize) : t.Row y = k := by
  have hk0q : (0 : ℚ) ≤ k := by exact_mod_cast hk0
  have hk1q : (k : ℚ) + 1 ≤ t.nrows := by exact_mod_cast hk1
  have hmin : t.miny ≤ y := by nlinarith
  have hmax : y < t.maxy := by
    unfold Tiles.maxy
    nlinarith
  unfold Tiles.Row
  rw [if_neg (by rintro (h | h) <;> linarith), if_neg (ne_of_lt hmax)]
  have h0 : 0 ≤ (y - t.miny) / t.tilesize := div_nonneg (by linarith) hs.le
  rw [truncToInt_of_nonneg h0, Int.floor_eq_iff]
  constructor
  · rw [le_div_iff₀ hs]
    linarith
  · rw [div_lt_iff₀ hs]
    linarith

/-- A point of the half-open cell at row `r` and column `c` of a grid gets
the tile index `r * columns + c`. -/
theorem midgard.Tiles.TileId_of_cell (t : Tiles) (hs : 0 < t.tilesize) (r c : Int)
    (p : PointLL) (hr0 : 0 ≤ r) (hr1 : r < t.nrows) (hc0 : 0 ≤ c) (hc1 : c < t.ncolumns)
    (hx1 : t.minx + c * t.tilesize ≤ p.x) (hx2 : p.x < t.minx + c * t.tilesize + t.tilesize)
    (hy1 : t.miny + r * t.tilesize ≤ p.y) (hy2 : p.y < t.miny + r * t.tilesize + t.tilesize) :
    t.TileId p = r * t.ncolumns + c := by
  have hc0q : (0 : ℚ) ≤ c := by exact_mod_cast hc0
  have hc1q : (c : ℚ) + 1 ≤ t.ncolumns := by exact_mod_cast hc1
  have hr0q : (0 : ℚ) ≤ r := by exact_mod_cast hr0
  have hr1q : (r : ℚ) + 1 ≤ t.nrows := by exact_mod_cast hr1
  have hx : t.minx ≤ p.x ∧ p.x ≤ t.maxx := by
    unfold Tiles.maxx
    constructor <;> nlinarith
  have hy : t.miny ≤ p.y ∧ p.y ≤ t.maxy := by
    unfold Tiles.maxy
    constructor <;> nlinarith
  unfold Tiles.TileId
  rw [if_neg (by rintro (h | h | h | h) <;> linarith),
    t.Row_of_cell hs r p.y hr0 hr1 hy1 hy2, t.Col_of_cell hs c p.x hc0 hc1 hx1 hx2]

/-! ## From a point to its identifier and back to bounds -/

/-- C12: at a level below 3 (an index `level` of the table), a point
strictly inside the rectangle of a tile `q` of that level's grid gets a valid
identifier, that of tile `q`, and the bounding rectangle of that identifier
contains the point (strictly inside, hence edges included). -/
theorem point_id_bounds_roundtrip (level : Nat) (l : TileLevel)
    (hl : levels.get? level = some l) (p : PointLL) (q : Int) (hq0 : 0 ≤ q)
    (hq1 : q < l.tiles.nrows * l.tiles.ncolumns)
    (hin : (l.tiles.TileBounds q).InInterior p) :
    level < 3 ∧ (GetGraphId p level).Is_Valid = true ∧
      GetGraphId p level = ⟨q.toNat, level, 0⟩ ∧
      ∃ b, GetGraphIdBoundingBox (GetGraphId p level) = .ok b ∧
        b.ContainsPoint p ∧ b.InInterior p := by
  obtain ⟨hlen, hget⟩ := List.get?_eq_some.mp hl
  have hmem : l ∈ levels := hget ▸ List.get_mem _ _ _
  obtain ⟨hs, hc, hr, -, -, -, -, hsmall⟩ := levels_grid l hmem
  obtain ⟨eq, r0, r1, c0, c1⟩ := grid_split q l.tiles.ncolumns l.tiles.nrows hc hq0 hq1
  have hb := l.tiles.TileBounds_row_col _ _ r0 c0 c1
  rw [← eq] at hb
  have hin2 := hin
  rw [hb] at hin2
  obtain ⟨x1, x2, y1, y2⟩ := hin2
  have hid := l.tiles.TileId_of_cell hs _ _ p r0 r1 c0 c1 x1.le x2 y1.le y2
  rw [← eq] at hid
  have hg : GetGraphId p level = ⟨q.toNat, level, 0⟩ := by
    simp only [GetGraphId, hlen, dite_true, hget, hid, ge_iff_le, hq0, if_true]
    rw [toUInt32_of_nonneg hq0 (by omega)]
  refine ⟨by simpa [levels_length] using hlen, ?_, hg, l.tiles.TileBounds q, ?_, ?_, hin⟩
  · rw [hg]
    simp [GraphId.Is_Valid, kInvalidGraphId]
  · rw [hg]
    simp only [GetGraphIdBoundingBox, levelsAt, hlen, dite_true, hget, Int.toNat_of_nonneg hq0]
  · exact ⟨hin.1.le, hin.2.1.le, hin.2.2.1.le, hin.2.2.2.le⟩

theorem point_id_bounds_roundtrip_witness :
    GetGraphId ⟨-179, -89⟩ 0 = ⟨0, 0, 0⟩ ∧
      ∃ b, GetGraphIdBoundingBox (GetGraphId ⟨-179, -89⟩ 0) = .ok b ∧
        b.ContainsPoint ⟨-179, -89⟩ := by
  obtain ⟨-, -, h1, b, h2, h3, -⟩ := point_id_bounds_roundtrip 0 (levels.get ⟨0, by decide⟩) rfl
    ⟨-179, -89⟩ 0 (by decide) (by decide)
    (by norm_num [levels, Tiles.TileBounds, Tiles.Base, Int.tdiv, AABB2.InInterior])
  exact ⟨h1, b, h2, h3⟩

/-! ## Closed form of the parent probe -/

theorem levels_pair_grid (n : Nat) (a b : TileLevel) (ha : levels.get? n = some a)
    (hb : levels.get? (n + 1) = some b) :
    0 < b.tiles.tilesize ∧ a.tiles.tilesize = 4 * b.tiles.tilesize ∧
      a.tiles.minx = b.tiles.minx ∧ a.tiles.miny = b.tiles.miny ∧
      b.tiles.ncolumns = 4 * a.tiles.ncolumns ∧ b.tiles.nrows = 4 * a.tiles.nrows ∧
      0 < a.tiles.ncolumns ∧ 0 < a.tiles.nrows ∧
      a.tiles.nrows * a.tiles.ncolumns < 4294967296 := by
  rcases levels_pair n a b ha hb with ⟨-, h1, h2⟩ | ⟨-, h1, h2⟩ <;>
    simp only [levels, List.get?_cons_zero, List.get?_cons_succ, Option.some.injEq]
      at h1 h2 <;>
    subst h1 h2 <;>
    norm_num

/-- The probe of `parent` taken from the tile at row `r` and column `c` of a
grid, half a tile edge of the four times coarser grid east and north of the
tile's corner, lies in the coarse tile at row `(r + 2) / 4` and column
`(c + 2) / 4`, as long as it stays inside the extent. -/
theorem probe_tile (up child : Tiles) (hs : 0 < child.tilesize)
    (hsz : up.tilesize = 4 * child.tilesize) (hx : up.minx = child.minx)
    (hy : up.miny = child.miny) (hcol : child.ncolumns = 4 * up.ncolumns)
    (hrow : child.nrows = 4 * up.nrows) (r c : Int) (hr0 : 0 ≤ r) (hc0 : 0 ≤ c)
    (hc2 : c + 2 < child.ncolumns) (hr2 : r + 2 < child.nrows) :
    up.TileId ((child.Base (r * child.ncolumns + c)).add ⟨up.TileSize / 2, up.TileSize / 2⟩) =
      (r + 2) / 4 * up.ncolumns + (c + 2) / 4 := by
  rw [child.Base_row_col r c hr0 hc0 (by omega)]
  have hsu : 0 < up.tilesize := by rw [hsz]; linarith
  have c1 : 4 * ((c + 2) / 4) ≤ c + 2 := by omega
  have c2 : c + 2 < 4 * ((c + 2) / 4) + 4 := by omega
  have r1 : 4 * ((r + 2) / 4) ≤ r + 2 := by omega
  have r2 : r + 2 < 4 * ((r + 2) / 4) + 4 := by omega
  have c1q : (4 * (((c + 2) / 4 : Int) : ℚ)) ≤ c + 2 := by exact_mod_cast c1
  have c2q : (c : ℚ) + 2 < 4 * (((c + 2) / 4 : Int) : ℚ) + 4 := by exact_mod_cast c2
  have r1q : (4 * (((r + 2) / 4 : Int) : ℚ)) ≤ r + 2 := by exact_mod_cast r1
  have r2q : (r : ℚ) + 2 < 4 * (((r + 2) / 4 : Int) : ℚ) + 4 := by exact_mod_cast r2
  apply up.TileId_of_cell hsu ((r + 2) / 4) ((c + 2) / 4)
  · omega
  · omega
  · omega
  · omega
  · simp only [PointLL.add, Tiles.TileSize, hsz, hx]
    nlinarith
  · simp only [PointLL.add, Tiles.TileSize, hsz, hx]
    nlinarith
  · simp only [PointLL.add, Tiles.TileSize, hsz, hy]
    nlinarith
  · simp only [PointLL.add, Tiles.TileSize, hsz, hy]
    nlinarith

/-- C20: for a tile `t` of regular level n+1 (level 1 or 2) with column
`c = t % columns` and row `r = t / columns` such that `c + 2 < columns` and
`r + 2 < rows`, `parent` returns the tile of level n at column `(c + 2) / 4`
and row `(r + 2) / 4`, that is tile index
`(r + 2) / 4 * parentColumns + (c + 2) / 4`, a tile of the level-n grid. -/
theorem parent_closed_form (n : Nat) (up child : TileLevel) (hu : levels.get? n = some up)
    (hc : levels.get? (n + 1) = some child) (t o : Nat)
    (hcol : (t : Int) % child.tiles.ncolumns + 2 < child.tiles.ncolumns)
    (hrow : (t : Int) / child.tiles.ncolumns + 2 < child.tiles.nrows) :
    parent ⟨t, n + 1, o⟩ =
        .ok ⟨(((t : Int) / child.tiles.ncolumns + 2) / 4 * up.tiles.ncolumns +
          ((t : Int) % child.tiles.ncolumns + 2) / 4).toNat, n, 0⟩ ∧
      0 ≤ ((t : Int) / child.tiles.ncolumns + 2) / 4 * up.tiles.ncolumns +
          ((t : Int) % child.tiles.ncolumns + 2) / 4 ∧
      ((t : Int) / child.tiles.ncolumns + 2) / 4 * up.tiles.ncolumns +
          ((t : Int) % child.tiles.ncolumns + 2) / 4 < up.tiles.nrows * up.tiles.ncolumns := by
  obtain ⟨hs, hsz, hx, hy, hcols, hrows, hC, hR, hsmall⟩ := levels_pair_grid n up child hu hc
  have hn : n = 0 ∨ n = 1 := by
    rcases levels_pair n up child hu hc with ⟨h, -, -⟩ | ⟨h, -, -⟩
    · exact Or.inl h
    · exact Or.inr h
  have hN : 0 < child.tiles.ncolumns := by omega
  have ht0 : (0 : Int) ≤ t := Int.ofNat_nonneg t
  have hr0 : 0 ≤ (t : Int) / child.tiles.ncolumns := Int.ediv_nonneg ht0 hN.le
  have hc0 : 0 ≤ (t : Int) % child.tiles.ncolumns := Int.emod_nonneg _ (by omega)
  have et : (t : Int) = (t : Int) / child.tiles.ncolumns * child.tiles.ncolumns +
      (t : Int) % child.tiles.ncolumns := by
    have := Int.emod_add_ediv (t : Int) child.tiles.ncolumns
    linarith [mul_comm child.tiles.ncolumns ((t : Int) / child.tiles.ncolumns)]
  have hprobe := probe_tile up.tiles child.tiles hs hsz hx hy hcols hrows _ _ hr0 hc0 hcol hrow
  rw [← et] at hprobe
  generalize (t : Int) / child.tiles.ncolumns = r at hprobe hr0 hrow ⊢
  generalize (t : Int) % child.tiles.ncolumns = c at hprobe hc0 hcol ⊢
  have i0 : 0 ≤ (r + 2) / 4 * up.tiles.ncolumns + (c + 2) / 4 :=
    add_nonneg (mul_nonneg (by omega) hC.le) (by omega)
  have i1 : (r + 2) / 4 * up.tiles.ncolumns + (c + 2) / 4 <
      up.tiles.nrows * up.tiles.ncolumns := by
    have : ((r + 2) / 4 + 1) * up.tiles.ncolumns ≤ up.tiles.nrows * up.tiles.ncolumns :=
      mul_le_mul_of_nonneg_right (by omega) hC.le
    have : (c + 2) / 4 < up.tiles.ncolumns := by omega
    linarith
  refine ⟨?_, i0, i1⟩
  have e1 : n % 256 = n := by omega
  have e2 : (n + 1) % 256 = n + 1 := by omega
  have e3 : n + 1 - 1 = n := by omega
  simp only [parent, parentFrom, Nat.succ_ne_zero, if_false, e1, e2, e3,
    get_tiling_regular n up hu, get_tiling_regular (n + 1) child hc, hprobe]
  rw [toUInt32_of_nonneg i0 (by omega)]

theorem parent_closed_form_witness :
    parent ⟨1030, 1, 0⟩ = .ok ⟨130, 0, 0⟩ ∧ parent ⟨2049, 2, 7⟩ = .ok ⟨0, 1, 0⟩ := by
  have h1 := (parent_closed_form 0 (levels.get ⟨0, by decide⟩) (levels.get ⟨1, by decide⟩)
    rfl rfl 1030 0 (by decide) (by decide)).1
  have h2 := (parent_closed_form 1 (levels.get ⟨1, by decide⟩) (levels.get ⟨2, by decide⟩)
    rfl rfl 2049 7 (by decide) (by decide)).1
  exact ⟨h1, h2⟩

end valhalla
